import Mathlib

/-!
Shallow embedding of the `tlang-fw` parser-combinator engine
(`src/src/analyzer.rs`, `src/parser/src/stream.rs`) and the two lexers built
on it (`src/src/lexer.rs` and `src/parser/src/lexer.rs`), together with
theorems settling the frozen claims about the specification.

Modelling conventions:
* A `Stream<T>` is a vector plus a cursor position; no API mutates the data,
  so an analyzer is embedded as a function `List ι → Nat → RRes ι ο` taking
  the immutable data and the entry position and returning an outcome carrying
  the final position (`Stream::pos` after the call).
* Rust `String`s are modelled as `List Char` (a Rust string is exactly a
  sequence of Unicode scalar values).
* The result type `RRes` has four constructors: `ok`/`err` mirror
  `AnalyzerResult`, `panicked` mirrors a Rust panic (`unwrap` on `Err`), and
  `diverge` marks a non-terminating loop.  The bounded-repetition combinator
  `Loop` is embedded with explicit fuel; fuel exhaustion yields `diverge`.
  With the fuel policies chosen below this coincides with the source loop for
  every analyzer that never moves the cursor backwards (all analyzers in this
  development): a `many`/`many1` run that would loop forever in the source
  burns any finite fuel and returns `diverge`, and a run that terminates in
  the source is reproduced exactly.
-/

/-- `ErrorExpect` from `src/src/analyzer.rs` (lines 16-22). -/
inductive ErrorExpect (ι : Type) where
  | any : ErrorExpect ι
  | eof : ErrorExpect ι
  | token : ι → ErrorExpect ι
  | unknown : ErrorExpect ι
deriving DecidableEq, Repr

/-- `AnalyzerError` from `src/src/analyzer.rs` (lines 24-29):
position, observed symbol (or none at end of input), and expectation. -/
structure AnalyzerError (ι : Type) where
  pos : Nat
  unexpected : Option ι
  expecting : ErrorExpect ι
deriving DecidableEq, Repr

/-- Outcome of running an analyzer: success or failure (each with the final
cursor position), a Rust panic, or non-termination. -/
inductive RRes (ι ο : Type) where
  | ok : ο → Nat → RRes ι ο
  | err : AnalyzerError ι → Nat → RRes ι ο
  | panicked : RRes ι ο
  | diverge : RRes ι ο
deriving DecidableEq, Repr

/-- An analyzer (`trait Analyzer`, `src/src/analyzer.rs` lines 59-167):
data plus entry position to outcome.  The data list never changes because the
`Stream` API (`src/parser/src/stream.rs`) only ever mutates the position. -/
abbrev An (ι ο : Type) : Type := List ι → Nat → RRes ι ο

namespace A

/-- `Stream::set_pos` (`src/parser/src/stream.rs` lines 23-30): moves the
cursor to `target` if `target ≤ len`, otherwise leaves it at `cur`
(the source returns `None` and the caller discards the result). -/
def setPos {ι : Type} (d : List ι) (cur target : Nat) : Nat :=
  if target ≤ d.length then target else cur

/-- `AnyOne` (`src/src/analyzer.rs` lines 236-246): consume and return the
next symbol; fail at end of input. -/
def any_one {ι : Type} : An ι ι := fun d p =>
  match d.get? p with
  | some v => .ok v (p + 1)
  | none => .err ⟨p, none, .any⟩ p

/-- `Attempt` (`src/src/analyzer.rs` lines 257-268): run the inner analyzer;
on failure restore the recorded entry position via `set_pos`. -/
def attempt {ι ο : Type} (a : An ι ο) : An ι ο := fun d p =>
  match a d p with
  | .err e p' => .err e (setPos d p' p)
  | r => r

/-- `Map` (`src/src/analyzer.rs` lines 279-285). -/
def map {ι ο τ : Type} (f : ο → τ) (a : An ι ο) : An ι τ := fun d p =>
  match a d p with
  | .ok x p' => .ok (f x) p'
  | .err e p' => .err e p'
  | .panicked => .panicked
  | .diverge => .diverge

/-- `Val` (`src/src/analyzer.rs` lines 296-302): always succeed with a
constant, consuming nothing. -/
def val {ι ο : Type} (x : ο) : An ι ο := fun _ p => .ok x p

/-- `Or` (`src/src/analyzer.rs` lines 313-322): run `a`; on failure run `b`
from wherever the cursor now is (no rewind). -/
def or {ι ο : Type} (a b : An ι ο) : An ι ο := fun d p =>
  match a d p with
  | .err _ p' => b d p'
  | r => r

/-- `And` (`src/src/analyzer.rs` lines 333-339): sequence, yielding a pair. -/
def and {ι ο τ : Type} (a : An ι ο) (b : An ι τ) : An ι (ο × τ) := fun d p =>
  match a d p with
  | .ok x p₁ =>
    match b d p₁ with
    | .ok y p₂ => .ok (x, y) p₂
    | .err e p₂ => .err e p₂
    | .panicked => .panicked
    | .diverge => .diverge
  | .err e p₁ => .err e p₁
  | .panicked => .panicked
  | .diverge => .diverge

/-- `With` (`src/src/analyzer.rs` lines 350-357): sequence, keeping the
second output. -/
def withC {ι ο τ : Type} (a : An ι ο) (b : An ι τ) : An ι τ := fun d p =>
  match a d p with
  | .ok _ p₁ => b d p₁
  | .err e p₁ => .err e p₁
  | .panicked => .panicked
  | .diverge => .diverge

/-- `Skip` (`src/src/analyzer.rs` lines 368-376): sequence, keeping the
first output. -/
def skipC {ι ο τ : Type} (a : An ι ο) (b : An ι τ) : An ι ο := fun d p =>
  match a d p with
  | .ok x p₁ =>
    match b d p₁ with
    | .ok _ p₂ => .ok x p₂
    | .err e p₂ => .err e p₂
    | .panicked => .panicked
    | .diverge => .diverge
  | .err e p₁ => .err e p₁
  | .panicked => .panicked
  | .diverge => .diverge

/-- `Optional` (`src/src/analyzer.rs` lines 387-393): wrap success as `some`,
failure as `none`; like `Or`, performs no rewind on failure. -/
def optional {ι ο : Type} (a : An ι ο) : An ι (Option ο) := fun d p =>
  match a d p with
  | .ok x p' => .ok (some x) p'
  | .err _ p' => .ok none p'
  | .panicked => .panicked
  | .diverge => .diverge

/-- The body of `Loop::analyze` (`src/src/analyzer.rs` lines 404-435) with
explicit fuel; `i` is the iteration counter, `acc` the collected values in
reverse order.  Mirrors the source exactly: stop when `max` is reached; on a
failed iteration propagate the error if fewer than `min` successes were
collected or if the iteration consumed input, otherwise stop successfully.
The source performs no progress check on successful iterations. -/
def loopGo {ι ο : Type} (a : An ι ο) (mn mx : Option Nat) :
    Nat → Nat → List ο → An ι (List ο)
  | 0, _, _, _, _ => .diverge
  | fuel + 1, i, acc, d, p =>
    if (match mx with | some m => decide (m ≤ i) | none => false) then
      .ok acc.reverse p
    else
      match a d p with
      | .ok x p' => loopGo a mn mx fuel (i + 1) (x :: acc) d p'
      | .err e p' =>
        if (match mn with | some m => decide (acc.length < m) | none => false) then
          .err e p'
        else if p' ≠ p then .err e p'
        else .ok acc.reverse p'
      | .panicked => .panicked
      | .diverge => .diverge

/-- Canonical fuel for an unbounded repetition: one more than the number of
remaining symbols.  Sufficient whenever every successful iteration consumes
at least one symbol; exhausted (yielding `diverge`) when an iteration
succeeds without moving the cursor, which makes the source loop forever. -/
def fuelC {ι : Type} (d : List ι) (p : Nat) : Nat := d.length + 1 - p

/-- `Analyzer::many` (`src/src/analyzer.rs` lines 122-127):
`Loop(a, None, None)`. -/
def many {ι ο : Type} (a : An ι ο) : An ι (List ο) := fun d p =>
  loopGo a none none (fuelC d p) 0 [] d p

/-- `Analyzer::many1` (`src/src/analyzer.rs` lines 129-134):
`Loop(a, Some(1), None)`. -/
def many1 {ι ο : Type} (a : An ι ο) : An ι (List ο) := fun d p =>
  loopGo a (some 1) none (fuelC d p) 0 [] d p

/-- `Analyzer::many_n` (`src/src/analyzer.rs` lines 136-141):
`Loop(a, Some(n), Some(n))`.  With `max = n` the source loop runs at most
`n + 1` iterations, so fuel `n + 1` always suffices. -/
def many_n {ι ο : Type} (a : An ι ο) (n : Nat) : An ι (List ο) := fun d p =>
  loopGo a (some n) (some n) (n + 1) 0 [] d p

/-- `Eof` (`src/src/analyzer.rs` lines 446-456). -/
def eof {ι : Type} : An ι Unit := fun d p =>
  match d.get? p with
  | some x => .err ⟨p, some x, .eof⟩ p
  | none => .ok () p

/-- `Token` (`src/src/analyzer.rs` lines 467-487): match one given symbol. -/
def token {ι : Type} [DecidableEq ι] (t : ι) : An ι ι := fun d p =>
  match d.get? p with
  | none => .err ⟨p, none, .token t⟩ p
  | some r =>
    if r = t then .ok r (p + 1)
    else .err ⟨p, some r, .token t⟩ p

/-- `Tokens` (`src/src/analyzer.rs` lines 498-523): match a given sequence
symbol by symbol, failing at the first mismatch without rewinding. -/
def tokens {ι : Type} [DecidableEq ι] (ts : List ι) : An ι (List ι) :=
  fun d p =>
    match ts with
    | [] => .ok [] p
    | t :: ts' =>
      match d.get? p with
      | none => .err ⟨p, none, .token t⟩ p
      | some y =>
        if t = y then
          match tokens ts' d (p + 1) with
          | .ok res p' => .ok (y :: res) p'
          | .err e p' => .err e p'
          | .panicked => .panicked
          | .diverge => .diverge
        else .err ⟨p, some y, .token t⟩ p

/-- `Expect` (`src/src/analyzer.rs` lines 534-549): match one symbol
satisfying a predicate. -/
def expect {ι : Type} (f : ι → Bool) : An ι ι := fun d p =>
  match d.get? p with
  | none => .err ⟨p, none, .unknown⟩ p
  | some x =>
    if f x then .ok x (p + 1)
    else .err ⟨p, some x, .unknown⟩ p

/-- `Msg` (`src/src/analyzer.rs` lines 563-575): overwrite the `expecting`
field of a resulting error. -/
def msg {ι ο : Type} (a : An ι ο) (m : ErrorExpect ι) : An ι ο := fun d p =>
  match a d p with
  | .err e p' => .err ⟨e.pos, e.unexpected, m⟩ p'
  | r => r

/-- `Then` (`src/src/analyzer.rs` lines 590-599): monadic continuation. -/
def thenC {ι ο τ : Type} (a : An ι ο) (f : ο → An ι τ) : An ι τ := fun d p =>
  match a d p with
  | .ok x p' => f x d p'
  | .err e p' => .err e p'
  | .panicked => .panicked
  | .diverge => .diverge

/-- `Fail` (`src/src/analyzer.rs` lines 630-640): always fail at the current
position, reporting the symbol found there. -/
def fail {ι ο : Type} : An ι ο := fun d p =>
  .err ⟨p, d.get? p, .unknown⟩ p

/-- `Analyzer::val` (`src/src/analyzer.rs` lines 94-99):
`self.with(val(x))`. -/
def valC {ι ο τ : Type} (a : An ι ο) (x : τ) : An ι τ :=
  withC a (val x)

/-- `Map` applied to a closure that unwraps a `Result`
(`src/src/lexer.rs` lines 105-109): an inner `Err` panics. -/
def mapP {ι ο τ : Type} (f : ο → Option τ) (a : An ι ο) : An ι τ := fun d p =>
  match a d p with
  | .ok x p' =>
    match f x with
    | some y => .ok y p'
    | none => .panicked
  | .err e p' => .err e p'
  | .panicked => .panicked
  | .diverge => .diverge

end A

/-! ## Token model (`src/src/token.rs`)

Rust strings are modelled as `List Char`.  The float widths `f32`/`f64` are
modelled by the exact rational value denoted by the decimal text (IEEE
rounding is abstracted away; it is exact on every decimal appearing in the
claims, such as `3.0`). -/

namespace Tok

/-- `Keyword` (`src/src/token.rs` lines 31-50). -/
inductive Keyword where
  | i32 | i64 | f32 | f64 | string | bool | char | true | false
  | letK | ifK | whileK | returnK | struct | funK | externK | forK
deriving DecidableEq, Repr

/-- `Symbol` (`src/src/token.rs` lines 52-83). -/
inductive Symbol where
  | dot | comma | colon | semicolon
  | openParent | closeParent | openBracket | closeBracket
  | openBrace | closeBrace
  | not | add | sub | mul | div | mod | and | or
  | bitAnd | bitOr | bitXor | pow
  | eq | ne | lt | lte | gt | gte | assign
deriving DecidableEq, Repr

/-- `NumLiteral` (`src/src/token.rs` lines 23-29); float payloads are the
exact rational values (see the section comment). -/
inductive NumLiteral where
  | i32 : Int → NumLiteral
  | i64 : Int → NumLiteral
  | f32 : ℚ → NumLiteral
  | f64 : ℚ → NumLiteral
deriving DecidableEq, Repr

/-- `Literal` (`src/src/token.rs` lines 16-21); the numeric constructor is
named `num` as at its use site `Literal::Num` (`src/src/lexer.rs` line 141). -/
inductive Literal where
  | char : Char → Literal
  | string : List Char → Literal
  | num : NumLiteral → Literal
deriving DecidableEq, Repr

/-- `Kind` (`src/src/token.rs` lines 8-14). -/
inductive Kind where
  | keyword : Keyword → Kind
  | ident : List Char → Kind
  | literal : Literal → Kind
  | symbol : Symbol → Kind
deriving DecidableEq, Repr

/-- `Token` (`src/src/token.rs` lines 1-6). -/
structure Token where
  kind : Kind
  pos : Nat
  len : Nat
deriving DecidableEq, Repr

end Tok

open Tok

/-! ## Numeric parsing helpers

Models of the `std` parse functions used by `src/src/lexer.rs`, specialised
to the strings the lexer can feed them (optional signs and exotic float
syntax never occur there). -/

/-- Value of a decimal digit string. -/
def digitsVal (l : List Char) : Nat :=
  l.foldl (fun a c => a * 10 + (c.toNat - 48)) 0

/-- Model of `str::parse::<i32>`: succeeds on a nonempty all-digit string
whose value fits in an `i32`. -/
def parseI32 (l : List Char) : Option Int :=
  if l ≠ [] ∧ l.all Char.isDigit then
    if digitsVal l ≤ 2147483647 then some (digitsVal l) else none
  else none

/-- Model of `str::parse::<i64>`: succeeds on a nonempty all-digit string
whose value fits in an `i64`. -/
def parseI64 (l : List Char) : Option Int :=
  if l ≠ [] ∧ l.all Char.isDigit then
    if digitsVal l ≤ 9223372036854775807 then some (digitsVal l) else none
  else none

/-- Model of `str::parse::<f64>` on the strings `num_literal` builds
(`digits` or `digits.digits`): the exact rational value.  On such strings the
Rust parse never returns `Err` (overflow rounds to infinity but still parses),
so the model succeeds on exactly this shape. -/
def parseF64 (l : List Char) : Option ℚ :=
  let ip := l.takeWhile Char.isDigit
  let rest := l.dropWhile Char.isDigit
  if ip = [] then none
  else
    match rest with
    | [] => some (digitsVal ip)
    | '.' :: fp =>
      if fp ≠ [] ∧ fp.all Char.isDigit then
        some ((digitsVal ip : ℚ) + (digitsVal fp : ℚ) / (10 ^ fp.length))
      else none
    | _ => none

/-- Model of `str::parse::<f32>`; same abstraction as `parseF64`. -/
def parseF32 (l : List Char) : Option ℚ := parseF64 l

/-- Hexadecimal digit as accepted by `u32::from_str_radix(_, 16)`:
`0-9`, `a-f` or `A-F`. -/
def isHex16 (c : Char) : Bool :=
  c.isDigit || ('a' ≤ c && c ≤ 'f') || ('A' ≤ c && c ≤ 'F')

/-- Value of a hexadecimal digit (junk on non-hex input, which the guarded
callers never pass). -/
def hexDigitVal (c : Char) : Nat :=
  if c.isDigit then c.toNat - 48
  else if 'a' ≤ c && c ≤ 'f' then c.toNat - 87
  else c.toNat - 55

/-- Value of a hexadecimal digit string. -/
def hexVal (l : List Char) : Nat :=
  l.foldl (fun a c => a * 16 + hexDigitVal c) 0

/-- Model of `u32::from_str_radix(s, 16)`: succeeds on a nonempty all-hex
string whose value fits in a `u32`. -/
def fromStrRadix16 (l : List Char) : Option Nat :=
  if l ≠ [] ∧ l.all isHex16 then
    if hexVal l < 4294967296 then some (hexVal l) else none
  else none

/-- Model of `std::char::from_u32`: `some` exactly on valid Unicode scalar
values (not a surrogate, at most `0x10FFFF`). -/
def charFromU32 (v : Nat) : Option Char :=
  if h : v.isValidChar then some ⟨⟨v, by
    rcases h with h | ⟨_, h⟩
    · exact Nat.lt_trans h (by decide)
    · exact Nat.lt_trans h (by decide)⟩, by
      simpa [Nat.isValidChar, UInt32.isValidChar] using h⟩
  else none

/-! ## The main-crate lexer (`src/src/lexer.rs`)

`fn skip` builds its pieces with local `let`s; they are lifted to top-level
definitions here, keeping the source expressions. -/

namespace L

/-- `string` (`src/src/lexer.rs` lines 9-11). -/
def string (s : List Char) : An Char (List Char) :=
  A.map (fun x => x) (A.tokens s)

/-- The `spaces` analyzer inside `skip` (`src/src/lexer.rs` lines 14-16):
`or!(token(' '), token('\n'), token('\t')).many().with(val(()))`. -/
def spaces : An Char Unit :=
  A.withC (A.many (A.or (A.token ' ') (A.or (A.token '\n') (A.token '\t'))))
    (A.val ())

/-- The `line_comment` analyzer inside `skip`
(`src/src/lexer.rs` lines 17-20). -/
def line_comment : An Char Unit :=
  A.withC
    (A.withC
      (A.withC (string "//".toList) (A.many (A.expect (fun x => x ≠ '\n'))))
      (A.optional (A.token '\n')))
    (A.val ())

/-- `fn block_comment_f` inside `skip` (`src/src/lexer.rs` lines 21-34),
with explicit recursion fuel (the source recurses natively; every recursive
call happens at least two symbols further into the input, so any fuel above
the input length reproduces the source exactly). -/
def block_comment_f : Nat → An Char Unit
  | 0 => fun _ _ => .diverge
  | fuel + 1 =>
    A.withC
      (A.withC
        (A.withC (string "/*".toList)
          (A.many (fun d p =>
            match d.get? p, d.get? (p + 1) with
            | some '/', some '*' => block_comment_f fuel d p
            | some '*', some '/' => A.fail d p
            | _, _ => A.withC A.any_one (A.val ()) d p)))
        (string "*/".toList))
      (A.val ())

/-- The `block_comment` analyzer inside `skip`
(`src/src/lexer.rs` line 35), supplied with ample fuel. -/
def block_comment : An Char Unit := fun d p =>
  block_comment_f (d.length + 1) d p

/-- The `comment` analyzer inside `skip` (`src/src/lexer.rs` line 37). -/
def comment : An Char Unit :=
  A.or (A.attempt line_comment) block_comment

/-- `skip` (`src/src/lexer.rs` lines 13-40):
`spaces.or(comment).many().with(val(()))`. -/
def skip : An Char Unit :=
  A.withC (A.many (A.or spaces comment)) (A.val ())

/-- `ident_str` (`src/src/lexer.rs` lines 42-49). -/
def ident_str : An Char (List Char) :=
  A.map (fun x => x.1 :: x.2)
    (A.and (A.expect Char.isAlpha)
      (A.many (A.expect (fun c => c.isAlphanum || c = '_'))))

/-- The `num` analyzer inside `num_literal`
(`src/src/lexer.rs` lines 52-54). -/
def num : An Char (List Char) :=
  A.map (fun x => x) (A.many1 (A.expect Char.isDigit))

/-- The continuation passed to `then` inside `num_literal`
(`src/src/lexer.rs` lines 58-98): suffix dispatch on the lexed pieces. -/
def num_dispatch
    (x : (List Char × Option (Char × List Char)) × Option (List Char)) :
    An Char NumLiteral :=
      let s1 := x.1.1
      let dot_num := x.1.2
      let suffix := x.2
      match dot_num with
      | some dn =>
        let s := s1 ++ '.' :: dn.2
        match suffix with
        | none =>
          match parseF64 s with
          | some v => A.val (NumLiteral.f64 v)
          | none => A.fail
        | some suf =>
          if suf = "f64".toList then
            match parseF64 s with
            | some v => A.val (NumLiteral.f64 v)
            | none => A.fail
          else if suf = "f32".toList then
            match parseF32 s with
            | some v => A.val (NumLiteral.f32 v)
            | none => A.fail
          else A.fail
      | none =>
        match suffix with
        | none =>
          match parseI32 s1 with
          | some v => A.val (NumLiteral.i32 v)
          | none => A.fail
        | some suf =>
          if suf = "i32".toList then
            match parseI32 s1 with
            | some v => A.val (NumLiteral.i32 v)
            | none => A.fail
          else if suf = "i64".toList then
            match parseI64 s1 with
            | some v => A.val (NumLiteral.i64 v)
            | none => A.fail
          else A.fail

/-- `num_literal` (`src/src/lexer.rs` lines 51-99): digits, optional
fractional part, optional suffix, then suffix dispatch.  The canonical rule
(spec §9): with a fractional part the suffix must be absent/`f32`/`f64`;
without one it must be absent/`i32`/`i64` — anything else fails. -/
def num_literal : An Char NumLiteral :=
  A.thenC (A.and (A.and num (A.optional (A.and (A.token '.') num)))
      (A.optional ident_str))
    num_dispatch

/-- `hex_char` (`src/src/lexer.rs` lines 101-114): exactly `len` hex digits,
lowercased, assembled by `from_str_radix(.., 16)` whose `Err` is unwrapped
(a panic), then validated by `char::from_u32`. -/
def hex_char (len : Nat) : An Char Char :=
  A.thenC
    (A.mapP (fun x => (fromStrRadix16 x).map charFromU32)
      (A.many_n (A.map Char.toLower (A.expect isHex16)) len))
    (fun x =>
      match x with
      | some c => A.val c
      | none => A.fail)

/-- `literal_char` (`src/src/lexer.rs` lines 145-170).  The source matches
the escape character arms in order `t n r \\ (== lit) x u U`; the final arm
builds an error whose field expressions do not even type-check in the source
(a `String` where an `Option<char>` and an `ErrorExpect` are expected) — it
is modelled as an error at the recorded position carrying the offending
character.  Note the non-escape branch accepts any character, including the
literal's own quote. -/
def literal_char (lit : Char) : An Char Char := fun d p =>
  match A.any_one d p with
  | .ok c p₁ =>
    if c = '\\' then
      let pos := p₁
      match A.any_one d p₁ with
      | .ok c₂ p₂ =>
        if c₂ = 't' then .ok '\t' p₂
        else if c₂ = 'n' then .ok '\n' p₂
        else if c₂ = 'r' then .ok '\r' p₂
        else if c₂ = '\\' then .ok '\\' p₂
        else if c₂ = lit then .ok c₂ p₂
        else if c₂ = 'x' then hex_char 2 d p₂
        else if c₂ = 'u' then hex_char 4 d p₂
        else if c₂ = 'U' then hex_char 8 d p₂
        else .err ⟨pos, some c₂, .unknown⟩ p₂
      | .err e p₂ => .err e p₂
      | .panicked => .panicked
      | .diverge => .diverge
    else .ok c p₁
  | .err e p₁ => .err e p₁
  | .panicked => .panicked
  | .diverge => .diverge

/-- `char_literal` (`src/src/lexer.rs` lines 172-174). -/
def char_literal : An Char Char :=
  A.skipC (A.withC (A.token '\'') (literal_char '\'')) (A.token '\'')

/-- `string_literal` (`src/src/lexer.rs` lines 176-184). -/
def string_literal : An Char (List Char) :=
  A.skipC
    (A.withC (A.token '\"')
      (A.map (fun x => x) (A.many (literal_char '\"'))))
    (A.token '\"')

/-- `ident_or_keyword` (`src/src/lexer.rs` lines 186-210): lex a whole
identifier, then look it up in the reserved-word table. -/
def ident_or_keyword : An Char Kind :=
  A.thenC ident_str (fun s =>
    A.val (
      if s = "i32".toList then Kind.keyword .i32
      else if s = "i64".toList then Kind.keyword .i64
      else if s = "F32".toList then Kind.keyword .f32
      else if s = "F64".toList then Kind.keyword .f64
      else if s = "string".toList then Kind.keyword .string
      else if s = "bool".toList then Kind.keyword .bool
      else if s = "char".toList then Kind.keyword .char
      else if s = "true".toList then Kind.keyword .true
      else if s = "false".toList then Kind.keyword .false
      else if s = "let".toList then Kind.keyword .letK
      else if s = "if".toList then Kind.keyword .ifK
      else if s = "while".toList then Kind.keyword .whileK
      else if s = "return".toList then Kind.keyword .returnK
      else if s = "struct".toList then Kind.keyword .struct
      else if s = "fun".toList then Kind.keyword .funK
      else if s = "extern".toList then Kind.keyword .externK
      else if s = "for".toList then Kind.keyword .forK
      else Kind.ident s))

/-- `symbol` (`src/src/lexer.rs` lines 212-244): the ordered alternative
table; multi-character operators are tried, wrapped in `attempt`, before
their single-character prefixes. -/
def symbol : An Char Symbol :=
  A.or (A.valC (A.token '.') Symbol.dot)
  (A.or (A.valC (A.token ',') Symbol.comma)
  (A.or (A.valC (A.token ':') Symbol.colon)
  (A.or (A.valC (A.token ';') Symbol.semicolon)
  (A.or (A.valC (A.token '(') Symbol.openParent)
  (A.or (A.valC (A.token ')') Symbol.closeParent)
  (A.or (A.valC (A.token '[') Symbol.openBracket)
  (A.or (A.valC (A.token ']') Symbol.closeBracket)
  (A.or (A.valC (A.token '{') Symbol.openBrace)
  (A.or (A.valC (A.token '}') Symbol.closeBrace)
  (A.or (A.attempt (A.valC (string "!=".toList) Symbol.ne))
  (A.or (A.valC (A.token '!') Symbol.not)
  (A.or (A.valC (A.token '+') Symbol.add)
  (A.or (A.valC (A.token '-') Symbol.sub)
  (A.or (A.attempt (A.valC (string "**".toList) Symbol.pow))
  (A.or (A.valC (A.token '*') Symbol.mul)
  (A.or (A.valC (A.token '/') Symbol.div)
  (A.or (A.valC (A.token '%') Symbol.mod)
  (A.or (A.attempt (A.valC (string "&&".toList) Symbol.and))
  (A.or (A.valC (A.token '&') Symbol.bitAnd)
  (A.or (A.attempt (A.valC (string "||".toList) Symbol.or))
  (A.or (A.valC (A.token '|') Symbol.bitOr)
  (A.or (A.valC (A.token '^') Symbol.bitXor)
  (A.or (A.attempt (A.valC (string "<=".toList) Symbol.lte))
  (A.or (A.valC (A.token '<') Symbol.lt)
  (A.or (A.attempt (A.valC (string ">=".toList) Symbol.gte))
  (A.or (A.valC (A.token '>') Symbol.gt)
  (A.or (A.attempt (A.valC (string "==".toList) Symbol.eq))
  (A.valC (A.token '=') Symbol.assign))))))))))))))))))))))))))))

/-- `literal` (`src/src/lexer.rs` lines 137-143). -/
def literal : An Char Literal :=
  A.or (A.map Literal.char char_literal)
  (A.or (A.map Literal.string string_literal)
  (A.map Literal.num num_literal))

/-- `kind` (`src/src/lexer.rs` lines 129-135). -/
def kind : An Char Kind :=
  A.or ident_or_keyword
  (A.or (A.map Kind.symbol symbol)
  (A.map Kind.literal literal))

/-- `one_token` (`src/src/lexer.rs` lines 120-127): records the absolute
start offset and consumed length around `kind`. -/
def one_token : An Char Token := fun d p =>
  match kind d p with
  | .ok k p' => .ok ⟨k, p, p' - p⟩ p'
  | .err e p' => .err e p'
  | .panicked => .panicked
  | .diverge => .diverge

/-- `lexer` (`src/src/lexer.rs` lines 116-118):
`skip().with(one_token()).many1().skip(skip()).skip(eof())`. -/
def lexer : An Char (List Token) :=
  A.skipC (A.skipC (A.many1 (A.withC skip one_token)) skip) A.eof

end L

/-! ## The parser-crate lexer (`src/parser/src/lexer.rs`)

This crate's combinator module (`src/parser/src/parser.rs`) does not contain
the combinator engine (the file present under that name is an unrelated
grammar stub), so the engine is the one modelled above from
`src/src/analyzer.rs`, which the spec (§4.2) describes as the uniform
abstraction both lexers are built on; the combinator names and call shapes
used by `src/parser/src/lexer.rs` coincide with it.  Its token schema crate
is also absent; the `Tok` model above is reused.  Rules whose source text is
identical to the main crate's are reused by name. -/

namespace P

/-- `space` (`src/parser/src/lexer.rs` lines 13-15):
`or!(token(' '), token('\n'), token('\t')).with(val(()))` — exactly one
whitespace symbol. -/
def space : An Char Unit :=
  A.withC (A.or (A.token ' ') (A.or (A.token '\n') (A.token '\t'))) (A.val ())

/-- `line_comment` (`src/parser/src/lexer.rs` lines 17-22); identical rule
text to the main crate's local `line_comment`. -/
def line_comment : An Char Unit := L.line_comment

/-- `block_comment` (`src/parser/src/lexer.rs` lines 24-39); identical rule
text to the main crate's `block_comment_f` (the recursion goes through a
fresh `analyzer_func` wrapper, with the same semantics). -/
def block_comment : An Char Unit := L.block_comment

/-- `comment` (`src/parser/src/lexer.rs` lines 41-43). -/
def comment : An Char Unit :=
  A.or (A.attempt line_comment) block_comment

/-- `skip` (`src/parser/src/lexer.rs` lines 45-47): `space().or(comment())`
— unlike the main crate's `skip`, this consumes exactly one whitespace
symbol or one comment and fails otherwise. -/
def skip : An Char Unit :=
  A.or space comment

/-- `ident_str` (`src/parser/src/lexer.rs` lines 49-56); identical rule text
to the main crate's. -/
def ident_str : An Char (List Char) := L.ident_str

/-- `num_literal` (`src/parser/src/lexer.rs` lines 58-93).  Differs from the
main crate's rule in the integer branch: an integer-form literal with an
`f32`/`f64` suffix parses as a float of that width instead of failing
(the "earlier draft" rule flagged in spec §9). -/
def num_literal : An Char NumLiteral :=
  A.thenC (A.and (A.and L.num (A.optional (A.and (A.token '.') L.num)))
      (A.optional ident_str))
    (fun x =>
      let s1 := x.1.1
      let dot_num := x.1.2
      let suffix := x.2
      match dot_num with
      | some dn =>
        let s := s1 ++ '.' :: dn.2
        match suffix with
        | none =>
          match parseF64 s with
          | some v => A.val (NumLiteral.f64 v)
          | none => A.fail
        | some suf =>
          if suf = "f64".toList then
            match parseF64 s with
            | some v => A.val (NumLiteral.f64 v)
            | none => A.fail
          else if suf = "f32".toList then
            match parseF32 s with
            | some v => A.val (NumLiteral.f32 v)
            | none => A.fail
          else A.fail
      | none =>
        match suffix with
        | none =>
          match parseI32 s1 with
          | some v => A.val (NumLiteral.i32 v)
          | none => A.fail
        | some suf =>
          if suf = "i32".toList then
            match parseI32 s1 with
            | some v => A.val (NumLiteral.i32 v)
            | none => A.fail
          else if suf = "i64".toList then
            match parseI64 s1 with
            | some v => A.val (NumLiteral.i64 v)
            | none => A.fail
          else if suf = "f32".toList then
            match parseF32 s1 with
            | some v => A.val (NumLiteral.f32 v)
            | none => A.fail
          else if suf = "f64".toList then
            match parseF64 s1 with
            | some v => A.val (NumLiteral.f64 v)
            | none => A.fail
          else A.fail)

/-- `hex_char` (`src/parser/src/lexer.rs` lines 95-108); identical rule text
to the main crate's. -/
def hex_char (len : Nat) : An Char Char := L.hex_char len

/-- `literal_char` (`src/parser/src/lexer.rs` lines 144-158).  Built from
`or` over `token`s rather than the main crate's hand-written function; the
non-escape branch is `expect(|&x| x != lit)`, so the literal's own quote is
not consumed.  Note the escape alternative is not wrapped in `attempt`: if
the character after a backslash matches no escape arm, the outer `or` runs
`expect` from after the consumed backslash. -/
def literal_char (lit : Char) : An Char Char :=
  A.or
    (A.withC (A.token '\\')
      (A.or (A.valC (A.token 't') '\t')
      (A.or (A.valC (A.token 'n') '\n')
      (A.or (A.valC (A.token 'r') '\r')
      (A.or (A.valC (A.token '\\') '\\')
      (A.or (A.valC (A.token lit) lit)
      (A.or (A.withC (A.token 'x') (hex_char 2))
      (A.or (A.withC (A.token 'u') (hex_char 4))
      (A.withC (A.token 'U') (hex_char 8))))))))))
    (A.expect (fun x => x ≠ lit))

/-- `char_literal` (`src/parser/src/lexer.rs` lines 160-162). -/
def char_literal : An Char Char :=
  A.skipC (A.withC (A.token '\'') (literal_char '\'')) (A.token '\'')

/-- `string_literal` (`src/parser/src/lexer.rs` lines 164-172). -/
def string_literal : An Char (List Char) :=
  A.skipC
    (A.withC (A.token '\"')
      (A.map (fun x => x) (A.many (literal_char '\"'))))
    (A.token '\"')

/-- `ident_or_keyword` (`src/parser/src/lexer.rs` lines 174-198); identical
rule text to the main crate's. -/
def ident_or_keyword : An Char Kind := L.ident_or_keyword

/-- `symbol` (`src/parser/src/lexer.rs` lines 200-232); identical rule text
to the main crate's. -/
def symbol : An Char Symbol := L.symbol

/-- `literal` (`src/parser/src/lexer.rs` lines 136-142). -/
def literal : An Char Literal :=
  A.or (A.map Literal.char char_literal)
  (A.or (A.map Literal.string string_literal)
  (A.map Literal.num num_literal))

/-- `kind` (`src/parser/src/lexer.rs` lines 128-134). -/
def kind : An Char Kind :=
  A.or ident_or_keyword
  (A.or (A.map Kind.symbol symbol)
  (A.map Kind.literal literal))

/-- `one_token` (`src/parser/src/lexer.rs` lines 119-126). -/
def one_token : An Char Token := fun d p =>
  match kind d p with
  | .ok k p' => .ok ⟨k, p, p' - p⟩ p'
  | .err e p' => .err e p'
  | .panicked => .panicked
  | .diverge => .diverge

/-- `lexer` (`src/parser/src/lexer.rs` lines 110-117):
`skip().map(|_| None).or(one_token().map(Some)).many()
  .map(filter_map).skip(eof())`.  No minimum token count and no trailing
skip step; skipped stretches become `None`s filtered out at the end. -/
def lexer : An Char (List Token) :=
  A.skipC
    (A.map (fun x => x.filterMap id)
      (A.many (A.or (A.map (fun _ => (none : Option Token)) skip)
        (A.map some one_token))))
    A.eof

end P

/-! ## Claim theorems -/

/-- Claim C4: for every analyzer `a` and stream state in which `a` fails,
`attempt(a)` fails with the same error and leaves the cursor at its value
immediately before the call; when `a` succeeds, `attempt(a)` returns `a`'s
value with the cursor where `a` left it. -/
theorem attempt_contract {ι ο : Type} (a : An ι ο) (d : List ι) (p : Nat)
    (hp : p ≤ d.length) :
    (∀ e p', a d p = .err e p' → A.attempt a d p = .err e p) ∧
    (∀ x p', a d p = .ok x p' → A.attempt a d p = .ok x p') := by
  constructor
  · intro e p' h
    simp [A.attempt, h, A.setPos, hp]
  · intro x p' h
    simp [A.attempt, h]

/-- Witness for `attempt_contract`: `token('a')` on input `"b"` fails and
`attempt` leaves the cursor at position 0. -/
theorem attempt_contract_witness :
    A.attempt (A.token 'a') ['b'] 0 = .err ⟨0, some 'b', .token 'a'⟩ 0 :=
  (attempt_contract (A.token 'a') ['b'] 0 (by decide)).1
    ⟨0, some 'b', .token 'a'⟩ 0 (by decide)

/-- Claim C5: `or(a,b)` returns `a`'s result when `a` succeeds; when `a`
fails, `b` runs from the cursor position `a`'s failure left behind (no
rewind); when both fail, the error of `or(a,b)` is exactly `b`'s error. -/
theorem or_contract {ι ο : Type} (a b : An ι ο) (d : List ι) (p : Nat) :
    (∀ x p', a d p = .ok x p' → A.or a b d p = .ok x p') ∧
    (∀ e p₁, a d p = .err e p₁ → A.or a b d p = b d p₁) ∧
    (∀ e₁ p₁ e₂ p₂, a d p = .err e₁ p₁ → b d p₁ = .err e₂ p₂ →
      A.or a b d p = .err e₂ p₂) := by
  refine ⟨fun x p' h => by simp [A.or, h], fun e p₁ h => by simp [A.or, h],
    fun e₁ p₁ e₂ p₂ h₁ h₂ => ?_⟩
  simp [A.or, h₁, h₂]

/-- Witness for `or_contract`: with `a = tokens "ab"` and `b = token 'x'` on
input `"ax"`, `a` fails at position 1 having consumed the `'a'`, `b` then
matches the `'x'` there, and both-fail on input `"ay"` surfaces `b`'s
error verbatim. -/
theorem or_contract_witness :
    A.or (A.tokens "ab".toList) (A.map (fun c => [c]) (A.token 'x'))
      "ax".toList 0 = .ok ['x'] 2 :=
  (or_contract (A.tokens "ab".toList) (A.map (fun c => [c]) (A.token 'x'))
      "ax".toList 0).2.1 ⟨1, some 'x', .token 'b'⟩ 1 (by decide) |>.trans
    (by decide)

/-- Claim C3 (code evaluation): on the six-character source text `"a\tb"`
the main-crate `string_literal` FAILS — `literal_char` accepts the unescaped
closing quote as an ordinary character, so the repetition swallows the
terminator and the trailing quote match dies at end of input — while the
claim (and the parser-crate sibling, shown for intent) requires success with
the value `a<TAB>b`.  The `\q` escape fails in the main crate as the claim
states, but the parser-crate variant accepts it as `q` because `or` does not
rewind the consumed backslash. -/
theorem string_literal_escape_eval :
    L.string_literal "\"a\\tb\"".toList 0 = .err ⟨6, none, .token '\"'⟩ 6 ∧
    L.string_literal "\"\\q\"".toList 0 = .err ⟨2, some 'q', .unknown⟩ 3 ∧
    P.string_literal "\"a\\tb\"".toList 0 = .ok "a\tb".toList 6 ∧
    P.string_literal "\"\\q\"".toList 0 = .ok "q".toList 4 := by
  refine ⟨by decide, by decide, by decide, by decide⟩

/-- Claim C8: block comments nest; lexing `"/* a /* b */ c */ x"` with the
parser-crate pipeline yields exactly the single identifier token `x`, and an
unterminated block comment makes lexing fail; the main crate's recursive
`block_comment` rule likewise accepts the nested comment and rejects the
unterminated one. -/
theorem nested_block_comments :
    P.lexer "/* a /* b */ c */ x".toList 0 =
      .ok [⟨Kind.ident "x".toList, 18, 1⟩] 19 ∧
    P.lexer "/* a".toList 0 = .err ⟨4, none, .unknown⟩ 4 ∧
    L.block_comment "/* a /* b */ c */".toList 0 = .ok () 17 ∧
    L.block_comment "/* a".toList 0 = .err ⟨4, none, .token '*'⟩ 4 := by
  refine ⟨by decide, by decide, by decide, by decide⟩

/-- Claim C9: maximal munch for operators and identifiers: one application
of the token rule on `"<="` yields the single symbol `Lte` spanning both
characters (never `Lt` then `Assign`), `"<"` alone yields `Lt`, and
`"iffy"` yields the identifier `iffy` (never the keyword `if` plus a
remainder); the full parser-crate pipeline produces the same single
tokens. -/
theorem maximal_munch :
    L.one_token "<=".toList 0 = .ok ⟨Kind.symbol .lte, 0, 2⟩ 2 ∧
    L.one_token "<".toList 0 = .ok ⟨Kind.symbol .lt, 0, 1⟩ 1 ∧
    L.one_token "iffy".toList 0 = .ok ⟨Kind.ident "iffy".toList, 0, 4⟩ 4 ∧
    P.lexer "<=".toList 0 = .ok [⟨Kind.symbol .lte, 0, 2⟩] 2 ∧
    P.lexer "<".toList 0 = .ok [⟨Kind.symbol .lt, 0, 1⟩] 1 ∧
    P.lexer "iffy".toList 0 = .ok [⟨Kind.ident "iffy".toList, 0, 4⟩] 4 := by
  refine ⟨by decide, by decide, by decide, by decide, by decide, by decide⟩

/-! ## Repetition machinery

`chain a d p n` runs `a` exactly `n` consecutive times from position `p`,
requiring every run to succeed; it returns the collected outputs and the
final position.  It is the reference notion of "n successful iterations"
against which the `Loop` combinator is characterised. -/

def chain {ι ο : Type} (a : An ι ο) (d : List ι) :
    Nat → Nat → Option (List ο × Nat)
  | p, 0 => some ([], p)
  | p, n + 1 =>
    match a d p with
    | .ok x p' => (chain a d p' n).map (fun r => (x :: r.1, r.2))
    | _ => none

theorem chain_length {ι ο : Type} {a : An ι ο} {d : List ι} :
    ∀ {n p l pn}, chain a d p n = some (l, pn) → l.length = n := by
  intro n
  induction n with
  | zero =>
    intro p l pn h
    simp [chain] at h
    simp [h.1]
  | succ n ih =>
    intro p l pn h
    simp only [chain] at h
    cases hr : a d p with
    | ok x p' =>
      rw [hr] at h
      have h' : Option.map (fun r => (x :: r.1, r.2)) (chain a d p' n) =
          some (l, pn) := h
      cases hcc : chain a d p' n with
      | none => rw [hcc] at h'; simp at h'
      | some r =>
        obtain ⟨t, q⟩ := r
        rw [hcc] at h'
        simp at h'
        obtain ⟨rfl, -⟩ := h'
        simp [ih hcc]
    | err e p' => rw [hr] at h; simp at h
    | panicked => rw [hr] at h; simp at h
    | diverge => rw [hr] at h; simp at h

theorem loopGo_chain {ι ο : Type} {a : An ι ο} {d : List ι}
    (mn mx : Option Nat) :
    ∀ (n : Nat) {l : List ο} {pn : Nat} (fuel i : Nat) (acc : List ο)
      (p : Nat),
      chain a d p n = some (l, pn) → n ≤ fuel →
      (∀ m, mx = some m → i + n ≤ m) →
      A.loopGo a mn mx fuel i acc d p =
        A.loopGo a mn mx (fuel - n) (i + n) (l.reverse ++ acc) d pn := by
  intro n
  induction n with
  | zero =>
    intro l pn fuel i acc p hc _ _
    simp [chain] at hc
    simp [hc.1, hc.2]
  | succ n ih =>
    intro l pn fuel i acc p hc hfuel hmx
    simp only [chain] at hc
    cases hr : a d p with
    | ok x p' =>
      rw [hr] at hc
      have hc' : Option.map (fun r => (x :: r.1, r.2)) (chain a d p' n) =
          some (l, pn) := hc
      cases hcc : chain a d p' n with
      | none => rw [hcc] at hc'; simp at hc'
      | some r =>
        obtain ⟨t, q⟩ := r
        rw [hcc] at hc'
        simp at hc'
        obtain ⟨rfl, rfl⟩ := hc'
        obtain ⟨f, rfl⟩ : ∃ f, fuel = f + 1 := ⟨fuel - 1, by omega⟩
        have hstep : A.loopGo a mn mx (f + 1) i acc d p =
            A.loopGo a mn mx f (i + 1) (x :: acc) d p' := by
          cases hmxe : mx with
          | none =>
            subst hmxe
            simp [A.loopGo, hr]
          | some m =>
            have hd : decide (m ≤ i) = false := by
              have := hmx m hmxe
              simp only [decide_eq_false_iff_not]
              omega
            subst hmxe
            simp [A.loopGo, hd, hr]
        rw [hstep, ih f (i + 1) (x :: acc) p' hcc (by omega)
          (fun m hm => by have := hmx m hm; omega)]
        have e1 : f - n = f + 1 - (n + 1) := by omega
        have e2 : i + 1 + n = i + (n + 1) := by omega
        have e3 : t.reverse ++ (x :: acc) = (x :: t).reverse ++ acc := by
          simp
        rw [e1, e2, e3]
    | err e p' => rw [hr] at hc; simp at hc
    | panicked => rw [hr] at hc; simp at hc
    | diverge => rw [hr] at hc; simp at hc

/-- Claim C6: the repetition combinators repeat the inner analyzer until it
fails or `max` iterations are reached; a failure after fewer than `min`
successes, or a failure that consumed input (cursor advanced past the
iteration's start), fails the whole repetition with that iteration's error;
otherwise the repetition succeeds with the collected values.  Stated for
`many_n n` (min = max = n), `many` (no bounds) and `many1` (min 1), in terms
of `chain` (the first `n` successful runs of the inner analyzer). -/
theorem loop_contract {ι ο : Type} (a : An ι ο) (d : List ι) (p n : Nat)
    (l : List ο) (pn : Nat) :
    (chain a d p n = some (l, pn) → A.many_n a n d p = .ok l pn) ∧
    (∀ m, n < m → chain a d p n = some (l, pn) →
      ∀ e pf, a d pn = .err e pf → A.many_n a m d p = .err e pf) ∧
    (chain a d p n = some (l, pn) → n < A.fuelC d p →
      ∀ e pf, a d pn = .err e pf →
        ((pf ≠ pn → A.many a d p = .err e pf ∧ A.many1 a d p = .err e pf) ∧
         (pf = pn → A.many a d p = .ok l pn ∧
           (1 ≤ n → A.many1 a d p = .ok l pn)) ∧
         (n = 0 → A.many1 a d p = .err e pf))) := by
  refine ⟨?_, ?_, ?_⟩
  · intro hc
    unfold A.many_n
    rw [loopGo_chain (some n) (some n) n (n + 1) 0 [] p hc (by omega)
      (fun m hm => by cases hm; omega)]
    have e0 : n + 1 - n = 0 + 1 := by omega
    rw [e0]
    simp [A.loopGo]
  · intro m hm hc e pf hf
    unfold A.many_n
    rw [loopGo_chain (some m) (some m) n (m + 1) 0 [] p hc (by omega)
      (fun m' hm' => by cases hm'; omega)]
    have e1 : m + 1 - n = (m - n) + 1 := by omega
    rw [e1]
    have h1 : (decide (m ≤ 0 + n)) = false := by
      simp
      omega
    have h2 : (decide ((l.reverse ++ ([] : List ο)).length < m)) = true := by
      simp [chain_length hc]
      omega
    simp only [A.loopGo, h1, if_false, hf, h2, if_true]
    simp [h1, h2, hf]
  · intro hc hfuel e pf hf
    have hmany : ∀ mn' : Option Nat,
        A.loopGo a mn' none (A.fuelC d p) 0 [] d p =
        A.loopGo a mn' none (A.fuelC d p - n) (0 + n) (l.reverse ++ []) d pn :=
      fun mn' => loopGo_chain mn' none n (A.fuelC d p) 0 [] p hc (by omega)
        (fun m hm => by cases hm)
    obtain ⟨f, hfeq⟩ : ∃ f, A.fuelC d p - n = f + 1 :=
      ⟨A.fuelC d p - n - 1, by omega⟩
    have hlen : l.length = n := chain_length hc
    refine ⟨fun hne => ⟨?_, ?_⟩, fun heq => ⟨?_, fun h1 => ?_⟩, fun h0 => ?_⟩
    · unfold A.many
      rw [hmany none, hfeq]
      simp [A.loopGo, hf, hne]
    · unfold A.many1
      rw [hmany (some 1), hfeq]
      by_cases hn0 : (l.reverse ++ ([] : List ο)).length < 1 <;>
        simp [A.loopGo, hf, hn0, hne]
    · unfold A.many
      rw [hmany none, hfeq]
      subst heq
      simp [A.loopGo, hf]
    · unfold A.many1
      rw [hmany (some 1), hfeq]
      subst heq
      have h2 : (decide ((l.reverse ++ ([] : List ο)).length < 1)) = false := by
        simp [hlen]
        omega
      simp [A.loopGo, hf, h2]
    · unfold A.many1
      rw [hmany (some 1), hfeq]
      have h2 : (decide ((l.reverse ++ ([] : List ο)).length < 1)) = true := by
        simp [hlen, h0]
      simp [A.loopGo, hf, h2]

/-- Witness for `loop_contract`: `token('a')` on `"aab"` — two successes,
then a clean failure: `many` collects both, `many_n 2` stops at its max, and
`many_n 3` propagates the third iteration's error (min not reached). -/
theorem loop_contract_witness :
    A.many (A.token 'a') "aab".toList 0 = .ok "aa".toList 2 ∧
    A.many_n (A.token 'a') 2 "aab".toList 0 = .ok "aa".toList 2 ∧
    A.many_n (A.token 'a') 3 "aab".toList 0 =
      .err ⟨2, some 'b', .token 'a'⟩ 2 := by
  have h := loop_contract (A.token 'a') "aab".toList 0 2 "aa".toList 2
  refine ⟨?_, ?_, ?_⟩
  · exact ((h.2.2 (by decide) (by decide) ⟨2, some 'b', .token 'a'⟩ 2
      (by decide)).2.1 rfl).1
  · exact h.1 (by decide)
  · exact h.2.1 3 (by decide) (by decide) ⟨2, some 'b', .token 'a'⟩ 2
      (by decide)

/-! ## Divergence of the main-crate `skip`

`spaces` is a bare `many` of single-whitespace matchers, so it succeeds on
every input (possibly consuming nothing).  It is the first branch of the
`or` that `skip` repeats with `many`, and `Loop` performs no progress check
on successful iterations: the repetition therefore never stops. -/

theorem ws_loop {d : List Char} :
    ∀ (fuel p i : Nat) (acc : List Char), p ≤ d.length →
      d.length + 1 - p ≤ fuel →
      ∃ l q, A.loopGo (A.or (A.token ' ') (A.or (A.token '\n') (A.token '\t')))
          none none fuel i acc d p = .ok l q ∧ p ≤ q ∧ q ≤ d.length := by
  intro fuel
  induction fuel with
  | zero =>
    intro p i acc hp hf
    omega
  | succ f ih =>
    intro p i acc hp hf
    cases hg : d[p]? with
    | none =>
      refine ⟨acc.reverse, p, ?_, le_refl p, hp⟩
      simp [A.loopGo, A.or, A.token, hg]
    | some c =>
      have hplt : p < d.length := by
        by_contra h
        rw [List.getElem?_eq_none (by omega)] at hg
        exact Option.noConfusion hg
      by_cases h1 : c = ' '
      · have hrun : A.or (A.token ' ') (A.or (A.token '\n') (A.token '\t'))
            d p = .ok c (p + 1) := by
          simp [A.or, A.token, hg, h1]
        obtain ⟨l, q, hl, hq1, hq2⟩ := ih (p + 1) (i + 1) (c :: acc)
          (by omega) (by omega)
        refine ⟨l, q, ?_, by omega, hq2⟩
        simp [A.loopGo, hrun, hl]
      · by_cases h2 : c = '\n'
        · have hrun : A.or (A.token ' ') (A.or (A.token '\n') (A.token '\t'))
              d p = .ok c (p + 1) := by
            simp [A.or, A.token, hg, h1, h2]
          obtain ⟨l, q, hl, hq1, hq2⟩ := ih (p + 1) (i + 1) (c :: acc)
            (by omega) (by omega)
          refine ⟨l, q, ?_, by omega, hq2⟩
          simp [A.loopGo, hrun, hl]
        · by_cases h3 : c = '\t'
          · have hrun : A.or (A.token ' ') (A.or (A.token '\n') (A.token '\t'))
                d p = .ok c (p + 1) := by
              simp [A.or, A.token, hg, h1, h2, h3]
            obtain ⟨l, q, hl, hq1, hq2⟩ := ih (p + 1) (i + 1) (c :: acc)
              (by omega) (by omega)
            refine ⟨l, q, ?_, by omega, hq2⟩
            simp [A.loopGo, hrun, hl]
          · refine ⟨acc.reverse, p, ?_, le_refl p, hp⟩
            simp [A.loopGo, A.or, A.token, hg, h1, h2, h3]

theorem spaces_total (d : List Char) (p : Nat) (hp : p ≤ d.length) :
    ∃ q, L.spaces d p = .ok () q ∧ p ≤ q ∧ q ≤ d.length := by
  obtain ⟨l, q, hl, h1, h2⟩ := ws_loop (A.fuelC d p) p 0 [] hp (le_refl _)
  refine ⟨q, ?_, h1, h2⟩
  simp [L.spaces, A.withC, A.many, hl, A.val]

theorem skip_loop_div (d : List Char) :
    ∀ (fuel p i : Nat) (acc : List Unit), p ≤ d.length →
      A.loopGo (A.or L.spaces L.comment) none none fuel i acc d p =
        .diverge := by
  intro fuel
  induction fuel with
  | zero =>
    intro p i acc hp
    simp [A.loopGo]
  | succ f ih =>
    intro p i acc hp
    obtain ⟨q, hs, h1, h2⟩ := spaces_total d p hp
    have hinner : A.or L.spaces L.comment d p = .ok () q := by
      simp [A.or, hs]
    simp [A.loopGo, hinner, ih q (i + 1) (() :: acc) h2]

/-- Claim C1 (code evaluation): the main-crate `skip` never terminates, on
ANY input and position — contrary to the claim that every analyzer run
inside a `many` repetition consumes at least one symbol on success.  The
`spaces` sub-analyzer (a bare `many` of single-space matchers) succeeds
consuming nothing whenever the cursor is not on whitespace (including at end
of input), and `Loop` performs no progress check, so `skip`'s outer
repetition runs forever (formally: it exhausts every finite fuel). -/
theorem skip_never_terminates (d : List Char) (p : Nat) (hp : p ≤ d.length) :
    L.skip d p = .diverge := by
  have h := skip_loop_div d (A.fuelC d p) p 0 [] hp
  simp [L.skip, A.withC, A.many, h]

/-- Witness for `skip_never_terminates`: `skip` diverges on the one-symbol
input `"x"` and on the empty input. -/
theorem skip_never_terminates_witness :
    L.skip "x".toList 0 = .diverge ∧ L.skip "".toList 0 = .diverge :=
  ⟨skip_never_terminates "x".toList 0 (by decide),
   skip_never_terminates "".toList 0 (by decide)⟩

/-- Claim C7 (code evaluation): the main-crate top-level `lexer` never
returns at all — on every input it diverges, because its very first step
(`skip` inside `many1`) never terminates (see `skip_never_terminates`'s
helper lemmas).  It therefore neither fails on token-free input nor returns
a token sequence on any other input, contrary to the claim. -/
theorem lexer_never_terminates (d : List Char) (p : Nat) (hp : p ≤ d.length) :
    L.lexer d p = .diverge := by
  have hskip := skip_loop_div d (A.fuelC d p) p 0 [] hp
  have hs : L.skip d p = .diverge := by
    simp [L.skip, A.withC, A.many, hskip]
  obtain ⟨f, hf⟩ : ∃ f, A.fuelC d p = f + 1 :=
    ⟨A.fuelC d p - 1, by simp [A.fuelC]; omega⟩
  have hinner : A.withC L.skip L.one_token d p = .diverge := by
    simp [A.withC, hs]
  have hm : A.many1 (A.withC L.skip L.one_token) d p = .diverge := by
    simp [A.many1, hf, A.loopGo, hinner]
  simp [L.lexer, A.skipC, hm]

/-- Witness for `lexer_never_terminates`: the lexer diverges both on the
empty input (where the claim demands a failure) and on `"let x"` (where the
claim demands a token sequence). -/
theorem lexer_never_terminates_witness :
    L.lexer "".toList 0 = .diverge ∧ L.lexer "let x".toList 0 = .diverge :=
  ⟨lexer_never_terminates "".toList 0 (by decide),
   lexer_never_terminates "let x".toList 0 (by decide)⟩

/-! ## Runs of `expect` and clean stops of `many` -/

theorem many_clean_stop {ι ο : Type} {a : An ι ο} {d : List ι} {p n : Nat}
    {l : List ο} {pn : Nat} {e : AnalyzerError ι}
    (hc : chain a d p n = some (l, pn)) (hfuel : n < A.fuelC d p)
    (hf : a d pn = .err e pn) :
    A.many a d p = .ok l pn ∧ (1 ≤ n → A.many1 a d p = .ok l pn) := by
  have hmany : ∀ mn' : Option Nat,
      A.loopGo a mn' none (A.fuelC d p) 0 [] d p =
      A.loopGo a mn' none (A.fuelC d p - n) (0 + n) (l.reverse ++ []) d pn :=
    fun mn' => loopGo_chain mn' none n (A.fuelC d p) 0 [] p hc (by omega)
      (fun m hm => by cases hm)
  obtain ⟨f, hfeq⟩ : ∃ f, A.fuelC d p - n = f + 1 :=
    ⟨A.fuelC d p - n - 1, by omega⟩
  constructor
  · unfold A.many
    rw [hmany none, hfeq]
    simp [A.loopGo, hf]
  · intro h1
    unfold A.many1
    rw [hmany (some 1), hfeq]
    have h2 : (decide ((l.reverse ++ ([] : List ο)).length < 1)) = false := by
      simp [chain_length hc]
      omega
    simp [A.loopGo, hf, h2]

theorem run_expect {d : List Char} (P : Char → Bool) :
    ∀ (xs rest : List Char) (p : Nat), d.drop p = xs ++ rest →
      (∀ x ∈ xs, P x = true) →
      chain (A.expect P) d p xs.length = some (xs, p + xs.length) := by
  intro xs
  induction xs with
  | nil =>
    intro rest p h hP
    simp [chain]
  | cons x t ih =>
    intro rest p h hP
    have hget : d[p]? = some x := by
      have h0 : (d.drop p)[0]? = some x := by rw [h]; simp
      rw [List.getElem?_drop] at h0
      simpa using h0
    have hdrop : d.drop (p + 1) = t ++ rest := by
      have h1 : (d.drop p).drop 1 = t ++ rest := by rw [h]; simp
      rw [List.drop_drop] at h1
      simpa [Nat.add_comm] using h1
    have hexp : A.expect P d p = .ok x (p + 1) := by
      simp [A.expect, hget, hP x (by simp)]
    simp only [chain, List.length_cons, hexp]
    rw [ih rest (p + 1) hdrop (fun y hy => hP y (by simp [hy]))]
    simp
    omega

theorem expect_stop {d : List Char} {P : Char → Bool} {p : Nat} :
    (∀ c, d[p]? = some c → P c = false) →
    A.expect P d p = .err ⟨p, d[p]?, .unknown⟩ p := by
  intro h
  cases hg : d[p]? with
  | none => simp [A.expect, hg]
  | some c => simp [A.expect, hg, h c hg]

/-! ## Character-class facts -/

theorem isAlpha_isDigit_false (c : Char) (h : c.isAlpha = true) :
    c.isDigit = false := by
  have hval : 97 ≤ c.val.toNat ∧ c.val.toNat ≤ 122 ∨
      65 ≤ c.val.toNat ∧ c.val.toNat ≤ 90 := by
    simp [Char.isAlpha, Char.isUpper, Char.isLower] at h
    rcases h with ⟨h1, h2⟩ | ⟨h1, h2⟩
    · right
      exact ⟨h1, h2⟩
    · left
      exact ⟨h1, h2⟩
  simp [Char.isDigit]
  intro h2
  have h2' : 48 ≤ c.val.toNat := h2
  show (57 : UInt32).toNat < c.val.toNat
  have e : (57 : UInt32).toNat = 57 := rfl
  rw [e]
  omega

theorem isAlpha_ne_dot (c : Char) (h : c.isAlpha = true) : c ≠ '.' := by
  rintro rfl
  simp [Char.isAlpha, Char.isUpper, Char.isLower] at h


theorem thenC_ok {ι ο τ : Type} {a : An ι ο} {f : ο → An ι τ} {d : List ι}
    {p : Nat} {x : ο} {p' : Nat} (h : a d p = .ok x p') :
    A.thenC a f d p = f x d p' := by
  simp [A.thenC, h]

/-- Claim C2: `num_literal` (main crate, the canonical rule) dispatches on
fractional part and suffix: `"3"` yields `I32 3`, `"3i64"` yields `I64 3`,
`"3.0"` yields `F64 3.0`, `"3.0f32"` yields `F32 3.0`; and for every
integer-form literal — a nonempty digit string followed by an
identifier-shaped suffix — any suffix other than `i32`/`i64` (in particular
`f32`/`f64`, as in `"3f64"`) makes the rule fail. -/
theorem num_literal_dispatch :
    L.num_literal "3".toList 0 = .ok (NumLiteral.i32 3) 1 ∧
    L.num_literal "3i64".toList 0 = .ok (NumLiteral.i64 3) 4 ∧
    L.num_literal "3.0".toList 0 = .ok (NumLiteral.f64 3) 3 ∧
    L.num_literal "3.0f32".toList 0 = .ok (NumLiteral.f32 3) 6 ∧
    ∀ (ds : List Char) (a : Char) (t : List Char), ds ≠ [] →
      (∀ c ∈ ds, c.isDigit = true) → a.isAlpha = true →
      (∀ c ∈ t, (c.isAlphanum || c = '_') = true) →
      a :: t ≠ "i32".toList → a :: t ≠ "i64".toList →
      L.num_literal (ds ++ a :: t) 0 =
        .err ⟨(ds ++ a :: t).length, none, .unknown⟩ (ds ++ a :: t).length := by
  have hq : ((digitsVal ['3'] : ℚ) + (digitsVal ['0'] : ℚ) / 10 ^ 1) = 3 := by
    have e1 : digitsVal ['3'] = 3 := rfl
    have e2 : digitsVal ['0'] = 0 := rfl
    rw [e1, e2]
    norm_num
  have hq64 : parseF64 ('3' :: '.' :: '0' :: []) = some 3 := by
    have h0 : parseF64 ('3' :: '.' :: '0' :: []) =
        some ((digitsVal ['3'] : ℚ) + (digitsVal ['0'] : ℚ) / 10 ^ 1) := rfl
    rw [h0, hq]
  have hq32 : parseF32 ('3' :: '.' :: '0' :: []) = some 3 := hq64
  refine ⟨by decide, by decide, ?_, ?_, ?_⟩
  · have hstage : A.and (A.and L.num
        (A.optional (A.and (A.token '.') L.num))) (A.optional L.ident_str)
        "3.0".toList 0 = .ok ((['3'], some ('.', ['0'])), none) 3 := by decide
    calc L.num_literal "3.0".toList 0
        = L.num_dispatch ((['3'], some ('.', ['0'])), none) "3.0".toList 3 :=
          thenC_ok hstage
      _ = (match parseF64 ('3' :: '.' :: '0' :: []) with
            | some v => A.val (NumLiteral.f64 v)
            | none => (A.fail : An Char NumLiteral)) "3.0".toList 3 := rfl
      _ = .ok (NumLiteral.f64 3) 3 := by rw [hq64]; rfl
  · have hstage : A.and (A.and L.num
        (A.optional (A.and (A.token '.') L.num))) (A.optional L.ident_str)
        "3.0f32".toList 0 =
        .ok ((['3'], some ('.', ['0'])), some ['f', '3', '2']) 6 := by decide
    calc L.num_literal "3.0f32".toList 0
        = L.num_dispatch ((['3'], some ('.', ['0'])), some ['f', '3', '2'])
            "3.0f32".toList 6 := thenC_ok hstage
      _ = (match parseF32 ('3' :: '.' :: '0' :: []) with
            | some v => A.val (NumLiteral.f32 v)
            | none => (A.fail : An Char NumLiteral)) "3.0f32".toList 6 := rfl
      _ = .ok (NumLiteral.f32 3) 6 := by rw [hq32]; rfl
  · intro ds a t hne hds ha ht hne32 hne64
    set d := ds ++ a :: t with hd
    have hlen : d.length = ds.length + 1 + t.length := by
      simp [hd]
      omega
    have hgetA : d[ds.length]? = some a := by
      rw [hd, List.getElem?_append_right (le_refl ds.length)]
      simp
    have hchain : chain (A.expect Char.isDigit) d 0 ds.length =
        some (ds, 0 + ds.length) := by
      have := run_expect (d := d) Char.isDigit ds (a :: t) 0 (by simp [hd]) hds
      simpa using this
    have hstop : A.expect Char.isDigit d ds.length =
        .err ⟨ds.length, some a, .unknown⟩ ds.length := by
      have := expect_stop (d := d) (P := Char.isDigit) (p := ds.length)
        (fun c hc => by
          rw [hgetA] at hc
          cases hc
          exact isAlpha_isDigit_false a ha)
      rw [hgetA] at this
      exact this
    have hmany1 : A.many1 (A.expect Char.isDigit) d 0 = .ok ds ds.length := by
      have h := many_clean_stop (p := 0) (by simpa using hchain)
        (by simp [A.fuelC]; omega) (by simpa using hstop)
      exact h.2 (by
        have := List.length_pos.mpr hne
        omega)
    have hnum : L.num d 0 = .ok ds ds.length := by
      simp [L.num, A.map, hmany1]
    have hopt1 : A.optional (A.and (A.token '.') L.num) d ds.length =
        .ok none ds.length := by
      have hne' : (a = '.') = False := by
        simp [isAlpha_ne_dot a ha]
      simp [A.optional, A.and, A.token, hgetA, hne']
    have hchain2 : chain (A.expect fun c => c.isAlphanum || c = '_') d
        (ds.length + 1) t.length = some (t, ds.length + 1 + t.length) := by
      have hdrop : d.drop (ds.length + 1) = t ++ [] := by
        have h1 : d.drop ds.length = a :: t := by
          rw [hd, List.drop_left]
        have h2 : (d.drop ds.length).drop 1 = t := by rw [h1]; simp
        rw [List.drop_drop] at h2
        simpa [Nat.add_comm, List.append_nil] using h2
      have := run_expect (d := d) (fun c => c.isAlphanum || c = '_') t []
        (ds.length + 1) hdrop ht
      simpa [Nat.add_assoc] using this
    have hstop2 : A.expect (fun c => c.isAlphanum || c = '_') d
        (ds.length + 1 + t.length) =
        .err ⟨ds.length + 1 + t.length, none, .unknown⟩
          (ds.length + 1 + t.length) := by
      have hnone : d[ds.length + 1 + t.length]? = none :=
        List.getElem?_eq_none (by omega)
      have := expect_stop (d := d) (P := fun c => c.isAlphanum || c = '_')
        (p := ds.length + 1 + t.length) (fun c hc => by
          rw [hnone] at hc
          cases hc)
      rw [hnone] at this
      exact this
    have hmany2 : A.many (A.expect fun c => c.isAlphanum || c = '_') d
        (ds.length + 1) = .ok t (ds.length + 1 + t.length) :=
      (many_clean_stop hchain2 (by simp [A.fuelC]; omega) hstop2).1
    have hident : L.ident_str d ds.length = .ok (a :: t) d.length := by
      have hexp : A.expect Char.isAlpha d ds.length =
          .ok a (ds.length + 1) := by
        simp [A.expect, hgetA, ha]
      have hlen2 : ds.length + 1 + t.length = d.length := by omega
      simp [L.ident_str, A.map, A.and, hexp, hmany2, hlen2]
    have hopt2 : A.optional L.ident_str d ds.length =
        .ok (some (a :: t)) d.length := by
      simp [A.optional, hident]
    have hand : A.and (A.and L.num
        (A.optional (A.and (A.token '.') L.num))) (A.optional L.ident_str)
        d 0 = .ok ((ds, none), some (a :: t)) d.length := by
      simp [A.and, hnum, hopt1, hopt2]
    have hfailv : (A.fail : An Char NumLiteral) d d.length =
        .err ⟨d.length, none, .unknown⟩ d.length := by
      simp [A.fail, List.getElem?_eq_none (le_refl d.length)]
    calc L.num_literal d 0
        = L.num_dispatch ((ds, none), some (a :: t)) d d.length :=
          thenC_ok hand
      _ = (if a :: t = "i32".toList then
            (match parseI32 ds with
             | some v => A.val (NumLiteral.i32 v)
             | none => A.fail)
           else if a :: t = "i64".toList then
            (match parseI64 ds with
             | some v => A.val (NumLiteral.i64 v)
             | none => A.fail)
           else (A.fail : An Char NumLiteral)) d d.length := rfl
      _ = .err ⟨d.length, none, .unknown⟩ d.length := by
          rw [if_neg hne32, if_neg hne64, hfailv]

/-- Witness for `num_literal_dispatch`: the integer-form literal `"3f64"`
(digits `3`, suffix `f64`) fails, at end of input. -/
theorem num_literal_dispatch_witness :
    L.num_literal "3f64".toList 0 = .err ⟨4, none, .unknown⟩ 4 :=
  num_literal_dispatch.2.2.2.2 ['3'] 'f' ['6', '4'] (by decide) (by decide)
    (by decide) (by decide) (by decide) (by decide)

/-! ## Hex-digit facts for `hex_char` -/

theorem isDigit_iff (c : Char) :
    c.isDigit = true ↔ 48 ≤ c.val.toNat ∧ c.val.toNat ≤ 57 := by
  simp [Char.isDigit]
  exact ⟨fun h => ⟨h.1, h.2⟩, fun h => ⟨h.1, h.2⟩⟩

theorem af_iff (c : Char) :
    ('a' ≤ c && c ≤ 'f') = true ↔ 97 ≤ c.val.toNat ∧ c.val.toNat ≤ 102 := by
  simp
  exact ⟨fun h => ⟨h.1, h.2⟩, fun h => ⟨h.1, h.2⟩⟩

theorem cAF_iff (c : Char) :
    ('A' ≤ c && c ≤ 'F') = true ↔ 65 ≤ c.val.toNat ∧ c.val.toNat ≤ 70 := by
  simp
  exact ⟨fun h => ⟨h.1, h.2⟩, fun h => ⟨h.1, h.2⟩⟩

theorem isHex16_iff (c : Char) : isHex16 c = true ↔
    (48 ≤ c.val.toNat ∧ c.val.toNat ≤ 57) ∨
    (97 ≤ c.val.toNat ∧ c.val.toNat ≤ 102) ∨
    (65 ≤ c.val.toNat ∧ c.val.toNat ≤ 70) := by
  simp only [isHex16, Bool.or_eq_true, isDigit_iff, af_iff, cAF_iff]
  tauto

theorem char_ofNat_toNat {n : Nat} (h : n < 55296) :
    (Char.ofNat n).val.toNat = n := by
  have hv : n.isValidChar := Or.inl h
  rw [Char.ofNat, dif_pos hv]
  simp [Char.ofNatAux, UInt32.toNat]

theorem isHex16_toLower (c : Char) (h : isHex16 c = true) :
    isHex16 c.toLower = true := by
  have hr := (isHex16_iff c).mp h
  have hTN : c.toNat = c.val.toNat := rfl
  rw [Char.toLower]
  by_cases hc : c.toNat ≥ 65 ∧ c.toNat ≤ 90
  · rw [if_pos hc]
    rw [isHex16_iff]
    right
    left
    obtain ⟨hc1, hc2⟩ := hc
    have hb : c.toNat + 32 < 55296 := by omega
    have e := char_ofNat_toNat hb
    rw [e]
    rw [hTN] at hc1 hc2 ⊢
    rcases hr with h3 | h3 | h3 <;> omega
  · rw [if_neg hc]
    exact h

theorem hexDigitVal_lt (c : Char) (h : isHex16 c = true) : hexDigitVal c < 16 := by
  have hr := (isHex16_iff c).mp h
  have hTN : c.toNat = c.val.toNat := rfl
  unfold hexDigitVal
  by_cases h1 : c.isDigit = true
  · rw [if_pos h1]
    have := (isDigit_iff c).mp h1
    rw [hTN]
    omega
  · rw [if_neg h1]
    by_cases h2 : ('a' ≤ c && c ≤ 'f') = true
    · rw [if_pos h2]
      have := (af_iff c).mp h2
      rw [hTN]
      omega
    · rw [if_neg h2]
      have hd : ¬(48 ≤ c.val.toNat ∧ c.val.toNat ≤ 57) :=
        fun hcon => h1 ((isDigit_iff c).mpr hcon)
      have ha : ¬(97 ≤ c.val.toNat ∧ c.val.toNat ≤ 102) :=
        fun hcon => h2 ((af_iff c).mpr hcon)
      rw [hTN]
      rcases hr with h3 | h3 | h3
      · exact absurd h3 hd
      · exact absurd h3 ha
      · omega

theorem hexVal_go (l : List Char) :
    ∀ a : Nat, (∀ c ∈ l, isHex16 c = true) →
      List.foldl (fun a c => a * 16 + hexDigitVal c) a l <
        (a + 1) * 16 ^ l.length := by
  induction l with
  | nil =>
    intro a _
    simp
  | cons c t ih =>
    intro a h
    simp only [List.foldl_cons, List.length_cons]
    have h1 : List.foldl (fun a c => a * 16 + hexDigitVal c)
        (a * 16 + hexDigitVal c) t <
        (a * 16 + hexDigitVal c + 1) * 16 ^ t.length :=
      ih (a * 16 + hexDigitVal c) (fun x hx => h x (by simp [hx]))
    have h2 : hexDigitVal c < 16 := hexDigitVal_lt c (h c (by simp))
    have h3 : (a * 16 + hexDigitVal c + 1) * 16 ^ t.length ≤
        ((a + 1) * 16) * 16 ^ t.length := by
      have : a * 16 + hexDigitVal c + 1 ≤ (a + 1) * 16 := by omega
      exact Nat.mul_le_mul_right _ this
    calc List.foldl (fun a c => a * 16 + hexDigitVal c)
          (a * 16 + hexDigitVal c) t
        < (a * 16 + hexDigitVal c + 1) * 16 ^ t.length := h1
      _ ≤ ((a + 1) * 16) * 16 ^ t.length := h3
      _ = (a + 1) * 16 ^ (t.length + 1) := by ring

theorem hexVal_lt (l : List Char) (h : ∀ c ∈ l, isHex16 c = true) :
    hexVal l < 16 ^ l.length := by
  have := hexVal_go l 0 h
  simpa [hexVal] using this

theorem fromStrRadix16_some {l : List Char} (hne : l ≠ [])
    (hh : ∀ c ∈ l, isHex16 c = true) (hlen : l.length ≤ 8) :
    fromStrRadix16 l = some (hexVal l) := by
  have hb : hexVal l < 4294967296 := by
    have h1 := hexVal_lt l hh
    have h2 : 16 ^ l.length ≤ 16 ^ 8 := Nat.pow_le_pow_right (by norm_num) hlen
    have h3 : (16 : Nat) ^ 8 = 4294967296 := by norm_num
    omega
  have hall : l.all isHex16 = true := List.all_eq_true.mpr hh
  simp [fromStrRadix16, hne, hall, hb]

theorem hex_inner (d : List Char) (p : Nat) :
    (∃ x, isHex16 x = true ∧
      A.map Char.toLower (A.expect isHex16) d p = .ok x.toLower (p + 1)) ∨
    (∃ e, A.map Char.toLower (A.expect isHex16) d p = .err e p) := by
  cases hg : d[p]? with
  | none =>
    right
    exact ⟨⟨p, none, .unknown⟩, by simp [A.map, A.expect, hg]⟩
  | some c =>
    by_cases hc : isHex16 c = true
    · left
      exact ⟨c, hc, by simp [A.map, A.expect, hg, hc]⟩
    · right
      exact ⟨⟨p, some c, .unknown⟩, by simp [A.map, A.expect, hg, hc]⟩

theorem hex_loop (len : Nat) (d : List Char) :
    ∀ (fuel i : Nat) (acc : List Char) (p : Nat), fuel + i = len + 1 →
      i ≤ len → acc.length = i →
      (∀ c ∈ acc, ∃ x, isHex16 x = true ∧ c = x.toLower) →
      (∃ e pf, A.loopGo (A.map Char.toLower (A.expect isHex16)) (some len)
          (some len) fuel i acc d p = .err e pf) ∨
      (∃ l q, A.loopGo (A.map Char.toLower (A.expect isHex16)) (some len)
          (some len) fuel i acc d p = .ok l q ∧ l.length = len ∧
          ∀ c ∈ l, ∃ x, isHex16 x = true ∧ c = x.toLower) := by
  intro fuel
  induction fuel with
  | zero =>
    intro i acc p h1 h2 _ _
    omega
  | succ f ih =>
    intro i acc p h1 h2 hlen hprop
    by_cases hmax : len ≤ i
    · right
      refine ⟨acc.reverse, p, by simp [A.loopGo, hmax], by simp [hlen]; omega,
        fun c hcmem => hprop c (List.mem_reverse.mp hcmem)⟩
    · rcases hex_inner d p with ⟨x, hx, hrun⟩ | ⟨e, hrun⟩
      · have hrec := ih (i + 1) (x.toLower :: acc) (p + 1) (by omega) (by omega)
          (by simp [hlen]) (by
            intro c hc
            rcases List.mem_cons.mp hc with rfl | hc
            · exact ⟨x, hx, rfl⟩
            · exact hprop c hc)
        rcases hrec with ⟨e, pf, hl⟩ | ⟨l, q, hl, hll, hlp⟩
        · left
          exact ⟨e, pf, by simp [A.loopGo, hmax, hrun, hl]⟩
        · right
          exact ⟨l, q, by simp [A.loopGo, hmax, hrun, hl], hll, hlp⟩
      · left
        refine ⟨e, p, ?_⟩
        have hminck : (decide (acc.length < len)) = true := by
          simp [hlen]
          omega
        simp [A.loopGo, hmax, hrun, hminck]

/-- Claim C10: for every length in {2, 4, 8} and every input stream,
`hex_char(len)` always returns a result (success or failure) and never
panics: the `unwrap` after the radix-16 parse is unreachable because
`many_n(len)` yields exactly `len` hex digits whose value fits in a `u32`,
and an invalid Unicode scalar value is rejected by a failure, not a
panic. -/
theorem hex_char_no_panic (len : Nat) (hlen : len = 2 ∨ len = 4 ∨ len = 8)
    (d : List Char) (p : Nat) :
    L.hex_char len d p ≠ .panicked ∧ L.hex_char len d p ≠ .diverge := by
  have hloop := hex_loop len d (len + 1) 0 [] p (by omega) (by omega) rfl
    (by intro c hc; cases hc)
  rcases hloop with ⟨e, pf, hl⟩ | ⟨l, q, hl, hll, hlp⟩
  · have : L.hex_char len d p = .err e pf := by
      simp [L.hex_char, A.thenC, A.mapP, A.many_n, hl]
    simp [this]
  · have hne : l ≠ [] := by
      intro hnil
      rw [hnil] at hll
      simp at hll
      omega
    have hhex : ∀ c ∈ l, isHex16 c = true := by
      intro c hc
      obtain ⟨x, hx, rfl⟩ := hlp c hc
      exact isHex16_toLower x hx
    have hl8 : l.length ≤ 8 := by omega
    have hsome := fromStrRadix16_some hne hhex hl8
    have hmap : A.mapP (fun x => (fromStrRadix16 x).map charFromU32)
        (A.many_n (A.map Char.toLower (A.expect isHex16)) len) d p =
        .ok (charFromU32 (hexVal l)) q := by
      simp [A.mapP, A.many_n, hl, hsome]
    cases hcf : charFromU32 (hexVal l) with
    | some c =>
      have : L.hex_char len d p = .ok c q := by
        simp [L.hex_char, A.thenC, hmap, hcf, A.val]
      simp [this]
    | none =>
      have : L.hex_char len d p = .err ⟨q, d[q]?, .unknown⟩ q := by
        simp [L.hex_char, A.thenC, hmap, hcf, A.fail]
      simp [this]

/-- Witness for `hex_char_no_panic`: `hex_char 2` on the empty input neither
panics nor diverges (it fails). -/
theorem hex_char_no_panic_witness :
    L.hex_char 2 [] 0 ≠ .panicked ∧ L.hex_char 2 [] 0 ≠ .diverge :=
  hex_char_no_panic 2 (Or.inl rfl) [] 0
